import Mathlib

/-!
Verification of the vue-db-viewer core: the split-pane resize engine
(`src/composables/useSplitPane.ts`) and the master table state store
(`src/stores/useMasterStore.ts`).

The embedding models JS numbers as rationals (ℚ), JS field values as an
inductive `Value` (numbers and strings), rows as association lists of
field name to value, and the reactive refs of each unit as explicit
record states transformed by pure functions translated clause by clause
from the TypeScript source.
-/

/-! ## Split-pane engine (useSplitPane.ts) -/

/-- Options record of `useSplitPane`, with the source defaults
(initialRatio 0.5, minLeftWidth 400, minRightWidth 400, resizable true). -/
structure SplitOptions where
  initialRatio : ℚ := 1/2
  minLeftWidth : ℚ := 400
  minRightWidth : ℚ := 400
  resizable : Bool := true
deriving DecidableEq

/-- The mutable refs of the composable: `splitRatio` and `isDragging`. -/
structure SplitState where
  splitRatio : ℚ
  isDragging : Bool
deriving DecidableEq

/-- The container's bounding rect: `left` edge and `width`
(of `getBoundingClientRect()`). -/
structure ContainerRect where
  left : ℚ
  width : ℚ
deriving DecidableEq

/-- A mouse event carries its `clientX` coordinate. -/
structure MouseEvent where
  clientX : ℚ
deriving DecidableEq

/-- `Math.max` on two rationals. -/
def jsMax (a b : ℚ) : ℚ := if a < b then b else a

/-- `Math.min` on two rationals. -/
def jsMin (a b : ℚ) : ℚ := if b < a then b else a

/-- Initial state: `splitRatio = initialRatio`, `isDragging = false`. -/
def initSplitState (opts : SplitOptions) : SplitState :=
  { splitRatio := opts.initialRatio, isDragging := false }

/-- `handleMouseDown`: returns unchanged unless `resizable` and a container
is attached; otherwise sets `isDragging := true`. (Cursor-style side
effects on `document.body` are outside the state model.) -/
def handleMouseDown (opts : SplitOptions) (container : Option ContainerRect)
    (st : SplitState) : SplitState :=
  if !opts.resizable || container.isNone then st
  else { st with isDragging := true }

/-- `handleMouseMove`: if not dragging or no container, returns unchanged;
otherwise computes `newRatio = (clientX - rect.left) / rect.width` and
clamps it with `Math.max(minLeftRatio, Math.min(maxLeftRatio, newRatio))`
where `minLeftRatio = minLeftWidth / width` and
`maxLeftRatio = 1 - minRightWidth / width`. -/
def handleMouseMove (opts : SplitOptions) (container : Option ContainerRect)
    (ev : MouseEvent) (st : SplitState) : SplitState :=
  if !st.isDragging then st
  else
    match container with
    | none => st
    | some rect =>
      let containerWidth := rect.width
      let mouseX := ev.clientX - rect.left
      let newRatio := mouseX / containerWidth
      let minLeftRatio := opts.minLeftWidth / containerWidth
      let maxLeftRatio := 1 - opts.minRightWidth / containerWidth
      let clamped := jsMax minLeftRatio (jsMin maxLeftRatio newRatio)
      { st with splitRatio := clamped }

/-- `handleMouseUp`: returns unchanged if not dragging, otherwise sets
`isDragging := false`. The ratio is never touched. -/
def handleMouseUp (st : SplitState) : SplitState :=
  if !st.isDragging then st
  else { st with isDragging := false }

/-- `leftWidth` computed property, as its numeric percentage
(the source renders the string `` `${splitRatio * 100}%` ``). -/
def leftWidth (st : SplitState) : ℚ := st.splitRatio * 100

/-- `rightWidth` computed property, as its numeric percentage
(the source renders the string `` `${(1 - splitRatio) * 100}%` ``). -/
def rightWidth (st : SplitState) : ℚ := (1 - st.splitRatio) * 100

/-! ## Master table store (useMasterStore.ts) -/

/-- A runtime field value of a row: a number or a string. -/
inductive Value where
  | num : Int → Value
  | str : String → Value
deriving DecidableEq

/-- A row is an opaque key/value record, modeled as an association list. -/
abbrev Row := List (String × Value)

/-- JS property access `row[key]`: `undefined` (i.e. `none`) when the key is
not a field of the row. -/
def getField (r : Row) (k : String) : Option Value :=
  (r.find? (fun p => p.1 == k)).map (fun p => p.2)

/-- Lexicographic strict comparison of character lists by code point,
the semantics of the JS `<` operator on strings. -/
def strLtb : List Char → List Char → Bool
  | [], [] => false
  | [], _ :: _ => true
  | _ :: _, [] => false
  | a :: as, b :: bs =>
    if a.toNat < b.toNat then true
    else if b.toNat < a.toNat then false
    else strLtb as bs

/-- JS `<` on two strings. -/
def jsStrLt (a b : String) : Bool := strLtb a.data b.data

/-- A decimal digit's numeric value, if the character is a digit. -/
def digToNat? (c : Char) : Option Nat :=
  if 48 ≤ c.toNat ∧ c.toNat ≤ 57 then some (c.toNat - 48) else none

/-- Reads a run of decimal digits, failing on any non-digit. -/
def readNat : Nat → List Char → Option Nat
  | acc, [] => some acc
  | acc, c :: cs =>
    match digToNat? c with
    | some d => readNat (acc * 10 + d) cs
    | none => none

/-- Integer model of the JS `Number(string)` coercion: an optional minus
sign followed by decimal digits; anything else is `NaN` (`none`). -/
def strToInt? (s : String) : Option Int :=
  match s.data with
  | [] => none
  | c :: cs =>
    if c = '-' then
      match cs with
      | [] => none
      | _ :: _ => (readNat 0 cs).map (fun n => -(n : Int))
    else (readNat 0 s.data).map (fun n => (n : Int))

/-- JS `<` on two present values. Same-type operands compare numerically
resp. lexicographically; a number/string pair coerces the string to a
number (integer model of `Number()`), and a non-numeric string yields
`NaN`, whose comparisons are all false. -/
def ltVal : Value → Value → Bool
  | Value.num a, Value.num b => decide (a < b)
  | Value.str a, Value.str b => jsStrLt a b
  | Value.num a, Value.str b =>
    match strToInt? b with
    | some n => decide (a < n)
    | none => false
  | Value.str a, Value.num b =>
    match strToInt? a with
    | some n => decide (n < b)
    | none => false

/-- JS `<` on possibly-`undefined` operands: any comparison involving
`undefined` is false (it coerces to `NaN`). -/
def jsLt : Option Value → Option Value → Bool
  | some a, some b => ltVal a b
  | _, _ => false

/-- Sort direction: `'asc'` or `'desc'` (the non-null values). -/
inductive Direction where
  | asc
  | desc
deriving DecidableEq

/-- The comparator the source passes to `Array.prototype.sort`:
`aVal < bVal` gives -1 for `'asc'` (1 for `'desc'`), `aVal > bVal` the
opposite, otherwise 0. -/
def rowCompare (col : String) (dir : Direction) (a b : Row) : Int :=
  let aVal := getField a col
  let bVal := getField b col
  if jsLt aVal bVal then (match dir with | Direction.asc => -1 | Direction.desc => 1)
  else if jsLt bVal aVal then (match dir with | Direction.asc => 1 | Direction.desc => -1)
  else 0

/-- The value-level core of `rowCompare`, for two present field values. -/
def cmpVal (dir : Direction) (va vb : Value) : Int :=
  if ltVal va vb then (match dir with | Direction.asc => -1 | Direction.desc => 1)
  else if ltVal vb va then (match dir with | Direction.asc => 1 | Direction.desc => -1)
  else 0

/-- Stable insertion of a row in front of the first element it need not
follow (comparator ≤ 0 keeps the earlier element first on ties). -/
def sortInsert (cmp : Row → Row → Int) (a : Row) : List Row → List Row
  | [] => [a]
  | b :: bs => if cmp a b ≤ 0 then a :: b :: bs else b :: sortInsert cmp a bs

/-- Model of `[...data].sort(comparator)`: insertion sort, which is stable;
ECMAScript requires `Array.prototype.sort` to be stable, and for a
consistent comparator the stable sorted sequence is unique, so this is a
faithful model of the engine's sort. -/
def stableSort (cmp : Row → Row → Int) : List Row → List Row
  | [] => []
  | a :: as => sortInsert cmp a (stableSort cmp as)

/-- The refs of the master store. -/
structure MasterState where
  data : List Row
  selectedRow : Option Row
  selectedIndex : Int
  isLoading : Bool
  sortColumn : Option String
  sortDirection : Option Direction
deriving DecidableEq

/-- Initial store state: no selection, no sort, not loading; `data` starts
as `sampleUsers`, modeled as the parameter `initialData`. -/
def initialState (initialData : List Row) : MasterState :=
  { data := initialData, selectedRow := none, selectedIndex := -1,
    isLoading := false, sortColumn := none, sortDirection := none }

/-- The `sortedData` computed property:
`if (!sortColumn.value || !sortDirection.value) return data.value`, else
sort a copy by the comparator. JS `!s` is also true for the empty string,
so an empty-string column behaves like a null one. -/
def sortedData (st : MasterState) : List Row :=
  match st.sortColumn, st.sortDirection with
  | some col, some dir =>
    if col.isEmpty then st.data
    else stableSort (rowCompare col dir) st.data
  | _, _ => st.data

/-- The `hasSelection` computed property: `selectedRow !== null`. -/
def hasSelection (st : MasterState) : Bool := st.selectedRow.isSome

/-- `selectRow(row, index)`: stores the pair without validation. The
source takes `row: any`, so a null row is representable as `none`. -/
def selectRow (row : Option Row) (index : Int) (st : MasterState) : MasterState :=
  { st with selectedRow := row, selectedIndex := index }

/-- `clearSelection()`: resets `selectedRow` to null and
`selectedIndex` to -1. -/
def clearSelection (st : MasterState) : MasterState :=
  { st with selectedRow := none, selectedIndex := -1 }

/-- `setData(newData)`: replaces `data`, then calls `clearSelection()`. -/
def setData (newData : List Row) (st : MasterState) : MasterState :=
  clearSelection { st with data := newData }

/-- `setSort(column, direction)`: stores both arguments, nothing else. -/
def setSort (column : Option String) (direction : Option Direction)
    (st : MasterState) : MasterState :=
  { st with sortColumn := column, sortDirection := direction }

/-- `setLoading(loading)`: stores the flag. -/
def setLoading (loading : Bool) (st : MasterState) : MasterState :=
  { st with isLoading := loading }

/-- The value under `col`, when present, is a number. -/
def isNumVal : Option Value → Bool
  | some (Value.num _) => true
  | _ => false

/-- The value under `col`, when present, is a string. -/
def isStrVal : Option Value → Bool
  | some (Value.str _) => true
  | _ => false

/-- All rows carry the sort column with values of one runtime type
(all numbers or all strings), so the comparator restricted to the list is
a consistent comparison function. -/
def HomogeneousKeys (col : String) (l : List Row) : Prop :=
  (∀ r ∈ l, isNumVal (getField r col) = true) ∨
  (∀ r ∈ l, isStrVal (getField r col) = true)

instance (col : String) (l : List Row) : Decidable (HomogeneousKeys col l) := by
  unfold HomogeneousKeys
  infer_instance

/-- States reachable from the initial state through the store actions,
with `selectRow` invoked as documented: a non-null row together with its
(hence non-negative) index. -/
inductive Reachable (ini : List Row) : MasterState → Prop where
  | base : Reachable ini (initialState ini)
  | selectStep {st : MasterState} (r : Row) (i : Int) :
      Reachable ini st → 0 ≤ i → Reachable ini (selectRow (some r) i st)
  | clearStep {st : MasterState} : Reachable ini st → Reachable ini (clearSelection st)
  | replaceStep {st : MasterState} (rows : List Row) :
      Reachable ini st → Reachable ini (setData rows st)
  | sortStep {st : MasterState} (c : Option String) (d : Option Direction) :
      Reachable ini st → Reachable ini (setSort c d st)
  | loadingStep {st : MasterState} (b : Bool) :
      Reachable ini st → Reachable ini (setLoading b st)

/-! ## Concrete inputs used by witnesses and counterexamples -/

/-- Options of the spec scenario: minimums 400/400, defaults elsewhere. -/
def c1opts : SplitOptions := { minLeftWidth := 400, minRightWidth := 400 }

/-- Scenario container: left edge 0, width 1000. -/
def c1rect : ContainerRect := { left := 0, width := 1000 }

/-- Scenario pointer event: 100px from the left edge. -/
def c1ev : MouseEvent := { clientX := 100 }

/-- Scenario state: ratio 0.5, dragging. -/
def c1st : SplitState := { splitRatio := 1/2, isDragging := true }

/-- Narrow-container options: minimums 400/400. -/
def c4opts : SplitOptions := { minLeftWidth := 400, minRightWidth := 400 }

/-- Narrow container: width 500, smaller than 400 + 400. -/
def c4rect : ContainerRect := { left := 0, width := 500 }

/-- Pointer at the container's middle. -/
def c4ev : MouseEvent := { clientX := 250 }

/-- Dragging state at ratio 0.5. -/
def c4st : SplitState := { splitRatio := 1/2, isDragging := true }

/-- A dragging state at ratio 0.3, about to receive mouse-up. -/
def c7st : SplitState := { splitRatio := 3/10, isDragging := true }

/-- A non-dragging state at ratio 0.3. -/
def c7stIdle : SplitState := { splitRatio := 3/10, isDragging := false }

/-- A non-dragging state at ratio 0.5. -/
def c8st : SplitState := { splitRatio := 1/2, isDragging := false }

/-- Row with field `k = 5`. -/
def c5r1 : Row := [("k", Value.num 5)]

/-- Row without any fields (so `k` is absent). -/
def c5r2 : Row := []

/-- Store sorted ascending by `k` over a present-value row followed by a
row lacking the field. -/
def c5st : MasterState :=
  { data := [c5r1, c5r2], selectedRow := none, selectedIndex := -1,
    isLoading := false, sortColumn := some "k",
    sortDirection := some Direction.asc }

/-- Store with a missing-field row, used by the C5 witness. -/
def c5stW : MasterState :=
  { data := [[("k", Value.num 7)], []], selectedRow := none,
    selectedIndex := -1, isLoading := false, sortColumn := some "k",
    sortDirection := some Direction.asc }

/-- Row `{id: 1, name: "B"}`. -/
def c6r1 : Row := [("id", Value.num 1), ("name", Value.str "B")]

/-- Row `{id: 2, name: "A"}`. -/
def c6r2 : Row := [("id", Value.num 2), ("name", Value.str "A")]

/-- Row `{id: 3, name: "A"}` (ties with `c6r2` on `name`). -/
def c6r3 : Row := [("id", Value.num 3), ("name", Value.str "A")]

/-- Store sorted ascending by `name`, with a tie on `name`. -/
def c6st : MasterState :=
  { data := [c6r1, c6r2, c6r3], selectedRow := none, selectedIndex := -1,
    isLoading := false, sortColumn := some "name",
    sortDirection := some Direction.asc }

/-- Row carrying the empty-string field with value 2. -/
def c6rE1 : Row := [("", Value.num 2)]

/-- Row carrying the empty-string field with value 1. -/
def c6rE2 : Row := [("", Value.num 1)]

/-- Store sorted ascending by the present but empty-string key. -/
def c6stE : MasterState :=
  { data := [c6rE1, c6rE2], selectedRow := none, selectedIndex := -1,
    isLoading := false, sortColumn := some "",
    sortDirection := some Direction.asc }

/-- Row with string value "b" under `a`. -/
def c6rM1 : Row := [("a", Value.str "b")]

/-- Row with number value 1 under `a`. -/
def c6rM2 : Row := [("a", Value.num 1)]

/-- Row with string value "a" under `a`. -/
def c6rM3 : Row := [("a", Value.str "a")]

/-- Store sorted ascending by `a` over mixed-type values. -/
def c6stM : MasterState :=
  { data := [c6rM1, c6rM2, c6rM3], selectedRow := none, selectedIndex := -1,
    isLoading := false, sortColumn := some "a",
    sortDirection := some Direction.asc }

/-- Store with a non-null sort key but a null direction, over unsorted
rows. -/
def c10st : MasterState :=
  setSort (some "name") none
    (initialState [[("name", Value.str "B")], [("name", Value.str "A")]])

/-! ## Split-pane lemmas and theorems -/

theorem jsMax_eq_max (a b : ℚ) : jsMax a b = max a b := by
  unfold jsMax
  rcases lt_trichotomy a b with h | h | h <;> simp [max_def, le_of_lt, h]

theorem jsMin_eq_min (a b : ℚ) : jsMin a b = min a b := by
  unfold jsMin
  rcases lt_trichotomy a b with h | h | h <;> simp [min_def, le_of_lt, h]

theorem handleMouseMove_ratio_eq (opts : SplitOptions) (rect : ContainerRect)
    (ev : MouseEvent) (st : SplitState) (hdrag : st.isDragging = true) :
    (handleMouseMove opts (some rect) ev st).splitRatio =
      jsMax (opts.minLeftWidth / rect.width)
        (jsMin (1 - opts.minRightWidth / rect.width)
          ((ev.clientX - rect.left) / rect.width)) := by
  simp [handleMouseMove, hdrag]

theorem handleMouseMove_not_dragging (opts : SplitOptions)
    (cont : Option ContainerRect) (ev : MouseEvent) (st : SplitState)
    (h : st.isDragging = false) : handleMouseMove opts cont ev st = st := by
  simp [handleMouseMove, h]

theorem handleMouseUp_isDragging (st : SplitState) :
    (handleMouseUp st).isDragging = false := by
  unfold handleMouseUp
  cases h : st.isDragging <;> simp [h]

theorem handleMouseUp_splitRatio (st : SplitState) :
    (handleMouseUp st).splitRatio = st.splitRatio := by
  unfold handleMouseUp
  cases h : st.isDragging <;> simp [h]

theorem foldl_mouseMove_not_dragging (opts : SplitOptions)
    (cont : Option ContainerRect) (evs : List MouseEvent) (st : SplitState)
    (h : st.isDragging = false) :
    evs.foldl (fun s e => handleMouseMove opts cont e s) st = st := by
  induction evs with
  | nil => rfl
  | cons e es ih =>
    rw [List.foldl_cons, handleMouseMove_not_dragging opts cont e st h, ih]

/-- C1: while dragging, with both minimums non-negative and the container
strictly wider than their sum, `handleMouseMove` yields a ratio inside
`[minLeftWidth/width, 1 - minRightWidth/width]`, computed by clamping the
raw ratio `(clientX - left)/width` to that interval. -/
theorem handleMouseMove_clamps_ratio (opts : SplitOptions) (rect : ContainerRect)
    (ev : MouseEvent) (st : SplitState) (hdrag : st.isDragging = true)
    (hL : 0 ≤ opts.minLeftWidth) (hR : 0 ≤ opts.minRightWidth)
    (hw : opts.minLeftWidth + opts.minRightWidth < rect.width) :
    opts.minLeftWidth / rect.width ≤ (handleMouseMove opts (some rect) ev st).splitRatio ∧
    (handleMouseMove opts (some rect) ev st).splitRatio ≤ 1 - opts.minRightWidth / rect.width ∧
    (handleMouseMove opts (some rect) ev st).splitRatio =
      jsMax (opts.minLeftWidth / rect.width)
        (jsMin (1 - opts.minRightWidth / rect.width)
          ((ev.clientX - rect.left) / rect.width)) := by
  have hw0 : (0:ℚ) < rect.width := lt_of_le_of_lt (add_nonneg hL hR) hw
  have hratio := handleMouseMove_ratio_eq opts rect ev st hdrag
  have key : opts.minLeftWidth / rect.width ≤ 1 - opts.minRightWidth / rect.width := by
    rw [div_le_iff hw0]
    have expand : (1 - opts.minRightWidth / rect.width) * rect.width
        = rect.width - opts.minRightWidth := by
      field_simp
    rw [expand]
    linarith
  refine ⟨?_, ?_, hratio⟩
  · rw [hratio, jsMax_eq_max]
    exact le_max_left _ _
  · rw [hratio, jsMax_eq_max, jsMin_eq_min]
    exact max_le key (min_le_left _ _)

/-- Witness for C1 at the spec scenario: width 1000, minimums 400/400,
pointer 100px from the left edge; the clamp bounds hold and the resulting
ratio is 0.4 (not 0.1). -/
theorem handleMouseMove_clamps_ratio_witness :
    (400:ℚ)/1000 ≤ (handleMouseMove c1opts (some c1rect) c1ev c1st).splitRatio ∧
    (handleMouseMove c1opts (some c1rect) c1ev c1st).splitRatio ≤ 1 - 400/1000 ∧
    (handleMouseMove c1opts (some c1rect) c1ev c1st).splitRatio = 2/5 := by
  have h := handleMouseMove_clamps_ratio c1opts c1rect c1ev c1st rfl
    (by norm_num [c1opts]) (by norm_num [c1opts]) (by norm_num [c1opts, c1rect])
  refine ⟨h.1, h.2.1, ?_⟩
  rw [h.2.2]
  simp only [jsMax, jsMin, c1opts, c1rect, c1ev]
  norm_num

/-- C4 counterexample: with container width 500 and minimums 400/400
(`minRatio = 0.8 > maxRatio = 0.2`), a mid-container drag yields ratio
0.8, which is not the midpoint 0.5 of the conflicting bounds. -/
theorem handleMouseMove_narrow_midpoint_cex :
    (handleMouseMove c4opts (some c4rect) c4ev c4st).splitRatio = 4/5 ∧
    ((4:ℚ)/5 ≠ (400/500 + (1 - 400/500)) / 2) := by
  constructor
  · simp only [handleMouseMove, jsMax, jsMin, c4opts, c4rect, c4ev, c4st]
    norm_num
  · norm_num

/-- C4 amended: when the container is too narrow for both minimums
(`width < minLeftWidth + minRightWidth`, so `minRatio > maxRatio`) a drag
update does not crash and clamps the ratio to the lower bound
`minLeftWidth / width` (the `Math.max` wins over the `Math.min`), not to a
midpoint. -/
theorem handleMouseMove_narrow_clamps_to_minLeft (opts : SplitOptions)
    (rect : ContainerRect) (ev : MouseEvent) (st : SplitState)
    (hdrag : st.isDragging = true) (hw0 : 0 < rect.width)
    (hn : rect.width < opts.minLeftWidth + opts.minRightWidth) :
    (handleMouseMove opts (some rect) ev st).splitRatio
      = opts.minLeftWidth / rect.width := by
  have expand : 1 - opts.minRightWidth / rect.width
      = (rect.width - opts.minRightWidth) / rect.width := by
    field_simp
  have hlt : 1 - opts.minRightWidth / rect.width < opts.minLeftWidth / rect.width := by
    rw [expand, div_lt_div_iff hw0 hw0]
    nlinarith
  rw [handleMouseMove_ratio_eq opts rect ev st hdrag, jsMax_eq_max, jsMin_eq_min]
  exact max_eq_left (le_trans (min_le_left _ _) (le_of_lt hlt))

/-- Witness for the amended C4: width 500, minimums 400/400, pointer at
the middle; the ratio is clamped to 400/500. -/
theorem handleMouseMove_narrow_clamps_to_minLeft_witness :
    (handleMouseMove c4opts (some c4rect) c4ev c4st).splitRatio
      = c4opts.minLeftWidth / c4rect.width :=
  handleMouseMove_narrow_clamps_to_minLeft c4opts c4rect c4ev c4st rfl
    (by norm_num [c4rect]) (by norm_num [c4rect, c4opts])

/-- C7: after `handleMouseUp`, any sequence of `handleMouseMove` events
leaves the ratio unchanged (until a new `handleMouseDown`); in general a
`handleMouseMove` in any state with `isDragging = false` is a no-op. -/
theorem ratio_fixed_after_mouseUp (opts : SplitOptions)
    (cont : Option ContainerRect) (st : SplitState) (evs : List MouseEvent)
    (ev : MouseEvent) (st2 : SplitState) :
    (evs.foldl (fun s e => handleMouseMove opts cont e s)
        (handleMouseUp st)).splitRatio = st.splitRatio ∧
    (st2.isDragging = false → handleMouseMove opts cont ev st2 = st2) := by
  constructor
  · rw [foldl_mouseMove_not_dragging opts cont evs (handleMouseUp st)
      (handleMouseUp_isDragging st), handleMouseUp_splitRatio]
  · exact handleMouseMove_not_dragging opts cont ev st2

/-- Witness for C7: concrete drag end at ratio 0.3 followed by a move to
700px changes nothing, and a move in an idle state is the identity. -/
theorem ratio_fixed_after_mouseUp_witness :
    (([{ clientX := 700 }] : List MouseEvent).foldl
        (fun s e => handleMouseMove c1opts (some c1rect) e s)
        (handleMouseUp c7st)).splitRatio = c7st.splitRatio ∧
    handleMouseMove c1opts (some c1rect) c1ev c7stIdle = c7stIdle :=
  ⟨(ratio_fixed_after_mouseUp c1opts (some c1rect) c7st [{ clientX := 700 }]
      c1ev c7stIdle).1,
   (ratio_fixed_after_mouseUp c1opts (some c1rect) c7st [{ clientX := 700 }]
      c1ev c7stIdle).2 rfl⟩

/-- C8: for any ratio in [0,1] the derived left and right width
percentages sum to exactly 100. -/
theorem leftWidth_add_rightWidth_eq_100 (st : SplitState)
    (h0 : 0 ≤ st.splitRatio) (h1 : st.splitRatio ≤ 1) :
    leftWidth st + rightWidth st = 100 := by
  unfold leftWidth rightWidth
  ring

/-- Witness for C8 at ratio 0.5. -/
theorem leftWidth_add_rightWidth_eq_100_witness :
    leftWidth c8st + rightWidth c8st = 100 :=
  leftWidth_add_rightWidth_eq_100 c8st (by norm_num [c8st]) (by norm_num [c8st])

/-! ## Store theorems: selection, sort setting, reachability -/

/-- C2: `setData` replaces the dataset and unconditionally clears the
selection (`selectedRow = null`, `selectedIndex = -1`), whatever the prior
state. -/
theorem setData_replaces_and_clears (st : MasterState) (newData : List Row) :
    (setData newData st).data = newData ∧
    (setData newData st).selectedRow = none ∧
    (setData newData st).selectedIndex = -1 :=
  ⟨rfl, rfl, rfl⟩

/-- C3 counterexample: `setSort(null, 'asc')` leaves
`sortDirection = 'asc'`, so the sort state is not cleared entirely. -/
theorem setSort_absent_key_cex :
    (setSort none (some Direction.asc) (initialState [])).sortDirection
      = some Direction.asc ∧
    some Direction.asc ≠ (none : Option Direction) :=
  ⟨rfl, by decide⟩

/-- C3 amended: `setSort` with an absent key sets `sortColumn` to absent
but stores the `direction` argument unchanged in `sortDirection`; reading
`sortedData` nonetheless returns the rows in original insertion order. -/
theorem setSort_absent_key_amended (st : MasterState) (dir : Option Direction) :
    (setSort none dir st).sortColumn = none ∧
    (setSort none dir st).sortDirection = dir ∧
    sortedData (setSort none dir st) = st.data := by
  refine ⟨rfl, rfl, ?_⟩
  cases dir <;> rfl

/-- C9: in every state reachable by the store's documented operations
(selecting a non-null row at its non-negative index, clearing, replacing
the data, setting sort or loading), `selectedRow` and `selectedIndex` are
set and cleared together: the row is null iff the index is -1. -/
theorem selection_invariant (ini : List Row) (st : MasterState)
    (h : Reachable ini st) :
    st.selectedRow = none ↔ st.selectedIndex = -1 := by
  induction h with
  | base => simp [initialState]
  | selectStep r i h1 hi ih =>
    simp only [selectRow]
    constructor
    · intro hr
      exact absurd hr (by simp)
    · intro hidx
      omega
  | clearStep h1 ih => simp [clearSelection]
  | replaceStep rows h1 ih => simp [setData, clearSelection]
  | sortStep c d h1 ih => simpa [setSort] using ih
  | loadingStep b h1 ih => simpa [setLoading] using ih

/-- Witness for C9: a concrete trace (select row at index 2, then replace
the rows) ends in a state satisfying the invariant. -/
theorem selection_invariant_witness :
    (setData [] (selectRow (some []) 2 (initialState []))).selectedRow = none ↔
    (setData [] (selectRow (some []) 2 (initialState []))).selectedIndex = -1 :=
  selection_invariant [] _
    (Reachable.replaceStep [] (Reachable.selectStep [] 2 Reachable.base (by decide)))

/-- C10: whenever `sortColumn` or `sortDirection` is null — not only when
both are — `sortedData` returns the rows sequence itself in insertion
order. -/
theorem sortedData_insertion_order_of_absent (st : MasterState)
    (h : st.sortColumn = none ∨ st.sortDirection = none) :
    sortedData st = st.data := by
  rcases h with h | h
  · cases hd : st.sortDirection <;> simp [sortedData, h, hd]
  · cases hc : st.sortColumn <;> simp [sortedData, h, hc]

/-- Witness for C10: a non-null key with a null direction leaves unsorted
rows in insertion order. -/
theorem sortedData_insertion_order_of_absent_witness :
    sortedData c10st = c10st.data :=
  sortedData_insertion_order_of_absent c10st (Or.inr rfl)

/-! ## Stable-sort correctness lemmas -/

theorem sortInsert_perm (cmp : Row → Row → Int) (a : Row) (l : List Row) :
    List.Perm (sortInsert cmp a l) (a :: l) := by
  induction l with
  | nil => exact List.Perm.refl _
  | cons b bs ih =>
    unfold sortInsert
    by_cases h : cmp a b ≤ 0
    · rw [if_pos h]
    · rw [if_neg h]
      exact (ih.cons b).trans (List.Perm.swap a b bs)

theorem stableSort_perm (cmp : Row → Row → Int) (l : List Row) :
    List.Perm (stableSort cmp l) l := by
  induction l with
  | nil => exact List.Perm.refl _
  | cons a as ih =>
    exact (sortInsert_perm cmp a (stableSort cmp as)).trans (ih.cons a)

theorem mem_of_mem_stableSort {cmp : Row → Row → Int} {x : Row} {l : List Row}
    (h : x ∈ stableSort cmp l) : x ∈ l :=
  (stableSort_perm cmp l).mem_iff.mp h

theorem sortInsert_pairwise (cmp : Row → Row → Int) (a : Row) (l : List Row)
    (htot : ∀ b ∈ l, cmp a b ≤ 0 ∨ cmp b a ≤ 0)
    (htrans : ∀ b ∈ l, ∀ c ∈ l, cmp a b ≤ 0 → cmp b c ≤ 0 → cmp a c ≤ 0)
    (hl : List.Pairwise (fun x y => cmp x y ≤ 0) l) :
    List.Pairwise (fun x y => cmp x y ≤ 0) (sortInsert cmp a l) := by
  induction l with
  | nil => simp [sortInsert]
  | cons b bs ih =>
    rw [List.pairwise_cons] at hl
    unfold sortInsert
    by_cases h : cmp a b ≤ 0
    · rw [if_pos h]
      refine List.Pairwise.cons ?_ (List.Pairwise.cons hl.1 hl.2)
      intro y hy
      rcases List.mem_cons.mp hy with rfl | hy'
      · exact h
      · exact htrans b (List.mem_cons_self b bs) y (List.mem_cons_of_mem b hy')
          h (hl.1 y hy')
    · rw [if_neg h]
      refine List.Pairwise.cons ?_
        (ih (fun c hc => htot c (List.mem_cons_of_mem b hc))
          (fun x hx y hy => htrans x (List.mem_cons_of_mem b hx)
            y (List.mem_cons_of_mem b hy))
          hl.2)
      intro y hy
      have hy2 : y ∈ a :: bs := (sortInsert_perm cmp a bs).subset hy
      rcases List.mem_cons.mp hy2 with rfl | hy'
      · rcases htot b (List.mem_cons_self b bs) with h' | h'
        · exact absurd h' h
        · exact h'
      · exact hl.1 y hy'

theorem stableSort_pairwise (cmp : Row → Row → Int) (l : List Row)
    (htot : ∀ a ∈ l, ∀ b ∈ l, cmp a b ≤ 0 ∨ cmp b a ≤ 0)
    (htrans : ∀ a ∈ l, ∀ b ∈ l, ∀ c ∈ l, cmp a b ≤ 0 → cmp b c ≤ 0 → cmp a c ≤ 0) :
    List.Pairwise (fun x y => cmp x y ≤ 0) (stableSort cmp l) := by
  induction l with
  | nil => simp [stableSort]
  | cons a as ih =>
    unfold stableSort
    apply sortInsert_pairwise
    · intro b hb
      exact htot a (List.mem_cons_self a as) b
        (List.mem_cons_of_mem a (mem_of_mem_stableSort hb))
    · intro b hb c hc hab hbc
      exact htrans a (List.mem_cons_self a as)
        b (List.mem_cons_of_mem a (mem_of_mem_stableSort hb))
        c (List.mem_cons_of_mem a (mem_of_mem_stableSort hc)) hab hbc
    · exact ih
        (fun x hx y hy => htot x (List.mem_cons_of_mem a hx)
          y (List.mem_cons_of_mem a hy))
        (fun x hx y hy z hz => htrans x (List.mem_cons_of_mem a hx)
          y (List.mem_cons_of_mem a hy) z (List.mem_cons_of_mem a hz))

theorem filter_sortInsert (cmp : Row → Row → Int) (p : Row → Bool) (a : Row)
    (l : List Row)
    (h : ∀ b ∈ l, p a = true → p b = true → cmp a b ≤ 0) :
    List.filter p (sortInsert cmp a l) =
      if p a = true then a :: List.filter p l else List.filter p l := by
  induction l with
  | nil =>
    by_cases hpa : p a = true <;> simp [sortInsert, List.filter, hpa]
  | cons b bs ih =>
    unfold sortInsert
    by_cases hab : cmp a b ≤ 0
    · rw [if_pos hab]
      by_cases hpa : p a = true <;> simp [List.filter_cons, hpa]
    · rw [if_neg hab]
      have ih' := ih (fun c hc => h c (List.mem_cons_of_mem b hc))
      by_cases hpa : p a = true
      · have hpb : p b = false := by
          rcases hb : p b with _ | _
          · rfl
          · exact absurd (h b (List.mem_cons_self b bs) hpa hb) hab
        rw [List.filter_cons, ih', if_pos hpa]
        simp [hpb, List.filter_cons, hpa]
      · rw [List.filter_cons, ih', if_neg hpa]
        by_cases hpb : p b = true <;> simp [hpb, List.filter_cons, hpa]

theorem filter_stableSort (cmp : Row → Row → Int) (p : Row → Bool)
    (l : List Row)
    (hcls : ∀ a ∈ l, ∀ b ∈ l, p a = true → p b = true → cmp a b ≤ 0) :
    List.filter p (stableSort cmp l) = List.filter p l := by
  induction l with
  | nil => rfl
  | cons a as ih =>
    unfold stableSort
    rw [filter_sortInsert cmp p a (stableSort cmp as)
      (fun b hb hpa hpb => hcls a (List.mem_cons_self a as)
        b (List.mem_cons_of_mem a (mem_of_mem_stableSort hb)) hpa hpb),
      ih (fun x hx y hy => hcls x (List.mem_cons_of_mem a hx)
        y (List.mem_cons_of_mem a hy))]
    by_cases hpa : p a = true <;> simp [List.filter_cons, hpa]

theorem strLtb_asymm (x y : List Char) (h : strLtb x y = true) :
    strLtb y x = false := by
  induction x generalizing y with
  | nil =>
    cases y with
    | nil => simp [strLtb] at h
    | cons b bs => simp [strLtb]
  | cons a as ih =>
    cases y with
    | nil => simp [strLtb] at h
    | cons b bs =>
      unfold strLtb at h ⊢
      by_cases h1 : a.toNat < b.toNat
      · have h2 : ¬ b.toNat < a.toNat := Nat.lt_asymm h1
        simp [h1, h2]
      · by_cases h2 : b.toNat < a.toNat
        · simp [h1, h2] at h
        · simp only [if_neg h1, if_neg h2] at h ⊢
          exact ih bs h

theorem strLtb_connex (x y z : List Char) (h : strLtb x z = true) :
    strLtb x y = true ∨ strLtb y z = true := by
  induction x generalizing y z with
  | nil =>
    cases z with
    | nil => simp [strLtb] at h
    | cons c cs =>
      cases y with
      | nil => right; simp [strLtb]
      | cons b bs => left; simp [strLtb]
  | cons a as ih =>
    cases z with
    | nil => simp [strLtb] at h
    | cons c cs =>
      cases y with
      | nil => right; simp [strLtb]
      | cons b bs =>
        unfold strLtb at h ⊢
        by_cases h1 : a.toNat < c.toNat
        · by_cases h2 : a.toNat < b.toNat
          · left; simp [h2]
          · right
            have h3 : b.toNat < c.toNat := by omega
            simp [h3]
        · by_cases h2 : c.toNat < a.toNat
          · simp [h1, h2] at h
          · simp only [if_neg h1, if_neg h2] at h
            by_cases h3 : a.toNat < b.toNat
            · left; simp [h3]
            · by_cases h4 : b.toNat < a.toNat
              · right
                have h5 : b.toNat < c.toNat := by omega
                simp [h5]
              · have h6 : ¬ b.toNat < c.toNat := by omega
                have h7 : ¬ c.toNat < b.toNat := by omega
                rcases ih bs cs h with h8 | h8
                · left; simp [h3, h4, h8]
                · right; simp [h6, h7, h8]

theorem ltVal_num_asymm (x y : Int)
    (h : ltVal (Value.num x) (Value.num y) = true) :
    ltVal (Value.num y) (Value.num x) = false := by
  simp [ltVal] at h ⊢
  omega

theorem ltVal_str_asymm (s t : String)
    (h : ltVal (Value.str s) (Value.str t) = true) :
    ltVal (Value.str t) (Value.str s) = false := by
  simp only [ltVal, jsStrLt] at h ⊢
  exact strLtb_asymm _ _ h

theorem ltVal_num_connex (x y z : Int)
    (h : ltVal (Value.num x) (Value.num z) = true) :
    ltVal (Value.num x) (Value.num y) = true ∨
    ltVal (Value.num y) (Value.num z) = true := by
  simp [ltVal] at h ⊢
  omega

theorem ltVal_str_connex (s t u : String)
    (h : ltVal (Value.str s) (Value.str u) = true) :
    ltVal (Value.str s) (Value.str t) = true ∨
    ltVal (Value.str t) (Value.str u) = true := by
  simp only [ltVal, jsStrLt] at h ⊢
  exact strLtb_connex _ _ _ h

theorem rowCompare_eq_cmpVal (col : String) (dir : Direction) (a b : Row)
    (va vb : Value) (ha : getField a col = some va)
    (hb : getField b col = some vb) :
    rowCompare col dir a b = cmpVal dir va vb := by
  simp [rowCompare, cmpVal, ha, hb, jsLt]

theorem cmpVal_neg (dir : Direction) (va vb : Value)
    (hasym : ltVal va vb = true → ltVal vb va = false) :
    cmpVal dir vb va = -(cmpVal dir va vb) := by
  unfold cmpVal
  by_cases h1 : ltVal va vb = true
  · have h2 := hasym h1
    cases dir <;> simp [h1, h2]
  · by_cases h2 : ltVal vb va = true <;> cases dir <;> simp [h1, h2]

theorem cmpVal_le_zero_iff (dir : Direction) (va vb : Value)
    (hasym : ltVal va vb = true → ltVal vb va = false) :
    cmpVal dir va vb ≤ 0 ↔
      (match dir with
       | Direction.asc => ltVal vb va = false
       | Direction.desc => ltVal va vb = false) := by
  unfold cmpVal
  by_cases h1 : ltVal va vb = true
  · have h2 := hasym h1
    cases dir <;> simp [h1, h2]
  · by_cases h2 : ltVal vb va = true <;> cases dir <;> simp [h1, h2]

theorem cmpVal_eq_zero_iff (dir : Direction) (va vb : Value) :
    cmpVal dir va vb = 0 ↔ (ltVal va vb = false ∧ ltVal vb va = false) := by
  unfold cmpVal
  by_cases h1 : ltVal va vb = true <;> by_cases h2 : ltVal vb va = true <;>
    cases dir <;> simp [h1, h2]

theorem cmpVal_le_zero_iff_asc (va vb : Value)
    (hasym : ltVal va vb = true → ltVal vb va = false) :
    cmpVal Direction.asc va vb ≤ 0 ↔ ltVal vb va = false :=
  cmpVal_le_zero_iff Direction.asc va vb hasym

theorem cmpVal_le_zero_iff_desc (va vb : Value)
    (hasym : ltVal va vb = true → ltVal vb va = false) :
    cmpVal Direction.desc va vb ≤ 0 ↔ ltVal va vb = false :=
  cmpVal_le_zero_iff Direction.desc va vb hasym

theorem isNumVal_shape {v : Option Value} (h : isNumVal v = true) :
    ∃ n, v = some (Value.num n) := by
  cases v with
  | none => simp [isNumVal] at h
  | some w =>
    cases w with
    | num n => exact ⟨n, rfl⟩
    | str s => simp [isNumVal] at h

theorem isStrVal_shape {v : Option Value} (h : isStrVal v = true) :
    ∃ s, v = some (Value.str s) := by
  cases v with
  | none => simp [isStrVal] at h
  | some w =>
    cases w with
    | num n => simp [isStrVal] at h
    | str s => exact ⟨s, rfl⟩

theorem hom_facts (col : String) (l : List Row) (hhom : HomogeneousKeys col l) :
    (∀ x ∈ l, ∃ v, getField x col = some v) ∧
    (∀ x ∈ l, ∀ y ∈ l, ∀ vx vy, getField x col = some vx →
      getField y col = some vy → (ltVal vx vy = true → ltVal vy vx = false)) ∧
    (∀ x ∈ l, ∀ y ∈ l, ∀ z ∈ l, ∀ vx vy vz, getField x col = some vx →
      getField y col = some vy → getField z col = some vz →
      (ltVal vx vz = true → ltVal vx vy = true ∨ ltVal vy vz = true)) := by
  rcases hhom with hnum | hstr
  · refine ⟨?_, ?_, ?_⟩
    · intro x hx
      obtain ⟨n, hn⟩ := isNumVal_shape (hnum x hx)
      exact ⟨_, hn⟩
    · intro x hx y hy vx vy hvx hvy
      obtain ⟨nx, hnx⟩ := isNumVal_shape (hnum x hx)
      obtain ⟨ny, hny⟩ := isNumVal_shape (hnum y hy)
      rw [hvx] at hnx
      rw [hvy] at hny
      rw [Option.some.inj hnx, Option.some.inj hny]
      exact ltVal_num_asymm nx ny
    · intro x hx y hy z hz vx vy vz hvx hvy hvz
      obtain ⟨nx, hnx⟩ := isNumVal_shape (hnum x hx)
      obtain ⟨ny, hny⟩ := isNumVal_shape (hnum y hy)
      obtain ⟨nz, hnz⟩ := isNumVal_shape (hnum z hz)
      rw [hvx] at hnx
      rw [hvy] at hny
      rw [hvz] at hnz
      rw [Option.some.inj hnx, Option.some.inj hny, Option.some.inj hnz]
      exact ltVal_num_connex nx ny nz
  · refine ⟨?_, ?_, ?_⟩
    · intro x hx
      obtain ⟨s, hs⟩ := isStrVal_shape (hstr x hx)
      exact ⟨_, hs⟩
    · intro x hx y hy vx vy hvx hvy
      obtain ⟨sx, hsx⟩ := isStrVal_shape (hstr x hx)
      obtain ⟨sy, hsy⟩ := isStrVal_shape (hstr y hy)
      rw [hvx] at hsx
      rw [hvy] at hsy
      rw [Option.some.inj hsx, Option.some.inj hsy]
      exact ltVal_str_asymm sx sy
    · intro x hx y hy z hz vx vy vz hvx hvy hvz
      obtain ⟨sx, hsx⟩ := isStrVal_shape (hstr x hx)
      obtain ⟨sy, hsy⟩ := isStrVal_shape (hstr y hy)
      obtain ⟨sz, hsz⟩ := isStrVal_shape (hstr z hz)
      rw [hvx] at hsx
      rw [hvy] at hsy
      rw [hvz] at hsz
      rw [Option.some.inj hsx, Option.some.inj hsy, Option.some.inj hsz]
      exact ltVal_str_connex sx sy sz

theorem rowCompare_facts (col : String) (dir : Direction) (l : List Row)
    (hhom : HomogeneousKeys col l) :
    (∀ a ∈ l, ∀ b ∈ l, rowCompare col dir b a = -(rowCompare col dir a b)) ∧
    (∀ a ∈ l, ∀ b ∈ l, ∀ c ∈ l,
      rowCompare col dir a b ≤ 0 → rowCompare col dir b c ≤ 0 →
      rowCompare col dir a c ≤ 0) ∧
    (∀ r ∈ l, ∀ a ∈ l, ∀ b ∈ l,
      rowCompare col dir a r = 0 → rowCompare col dir b r = 0 →
      rowCompare col dir a b ≤ 0) := by
  obtain ⟨hval, hasym, hconnex⟩ := hom_facts col l hhom
  refine ⟨?_, ?_, ?_⟩
  · intro a ha b hb
    obtain ⟨va, hva⟩ := hval a ha
    obtain ⟨vb, hvb⟩ := hval b hb
    rw [rowCompare_eq_cmpVal col dir a b va vb hva hvb,
      rowCompare_eq_cmpVal col dir b a vb va hvb hva]
    exact cmpVal_neg dir va vb (hasym a ha b hb va vb hva hvb)
  · intro a ha b hb c hc hab hbc
    obtain ⟨va, hva⟩ := hval a ha
    obtain ⟨vb, hvb⟩ := hval b hb
    obtain ⟨vc, hvc⟩ := hval c hc
    rw [rowCompare_eq_cmpVal col dir a b va vb hva hvb] at hab
    rw [rowCompare_eq_cmpVal col dir b c vb vc hvb hvc] at hbc
    rw [rowCompare_eq_cmpVal col dir a c va vc hva hvc]
    cases dir
    · rw [cmpVal_le_zero_iff_asc va vb (hasym a ha b hb va vb hva hvb)] at hab
      rw [cmpVal_le_zero_iff_asc vb vc (hasym b hb c hc vb vc hvb hvc)] at hbc
      rw [cmpVal_le_zero_iff_asc va vc (hasym a ha c hc va vc hva hvc)]
      by_contra hcv
      have hcv' : ltVal vc va = true := by
        revert hcv
        cases ltVal vc va <;> simp
      rcases hconnex c hc b hb a ha vc vb va hvc hvb hva hcv' with h | h
      · simp [h] at hbc
      · simp [h] at hab
    · rw [cmpVal_le_zero_iff_desc va vb (hasym a ha b hb va vb hva hvb)] at hab
      rw [cmpVal_le_zero_iff_desc vb vc (hasym b hb c hc vb vc hvb hvc)] at hbc
      rw [cmpVal_le_zero_iff_desc va vc (hasym a ha c hc va vc hva hvc)]
      by_contra hcv
      have hcv' : ltVal va vc = true := by
        revert hcv
        cases ltVal va vc <;> simp
      rcases hconnex a ha b hb c hc va vb vc hva hvb hvc hcv' with h | h
      · simp [h] at hab
      · simp [h] at hbc
  · intro r hr a ha b hb har hbr
    obtain ⟨vr, hvr⟩ := hval r hr
    obtain ⟨va, hva⟩ := hval a ha
    obtain ⟨vb, hvb⟩ := hval b hb
    rw [rowCompare_eq_cmpVal col dir a r va vr hva hvr,
      cmpVal_eq_zero_iff dir va vr] at har
    rw [rowCompare_eq_cmpVal col dir b r vb vr hvb hvr,
      cmpVal_eq_zero_iff dir vb vr] at hbr
    rw [rowCompare_eq_cmpVal col dir a b va vb hva hvb]
    have hba : ltVal vb va = false := by
      by_contra hx
      have hx' : ltVal vb va = true := by
        revert hx
        cases ltVal vb va <;> simp
      rcases hconnex b hb r hr a ha vb vr va hvb hvr hva hx' with h | h
      · simp [h] at hbr
      · simp [h] at har
    have hab2 : ltVal va vb = false := by
      by_contra hx
      have hx' : ltVal va vb = true := by
        revert hx
        cases ltVal va vb <;> simp
      rcases hconnex a ha r hr b hb va vr vb hva hvr hvb hx' with h | h
      · simp [h] at har
      · simp [h] at hbr
    unfold cmpVal
    rw [hba, hab2]
    simp

theorem sortedData_eq_stableSort (st : MasterState) (col : String)
    (dir : Direction) (hc : st.sortColumn = some col)
    (hne : col.isEmpty = false) (hd : st.sortDirection = some dir) :
    sortedData st = stableSort (rowCompare col dir) st.data := by
  simp [sortedData, hc, hd, hne]

/-- C6 counterexample: two scenarios with a present sort key and direction
where `sortedData` is not ordered by the key. With the (present but
empty-string) key `""` over rows holding `"": 2` and `"": 1`, the guard
treats the key as unset and returns the rows unsorted. With key `a` over
mixed-type values `"b"`, `1`, `"a"`, the output keeps the string `"b"` row
before the string `"a"` row under ascending sort. In both outputs an
earlier row compares strictly greater than a later one. -/
theorem sortedData_stable_sort_cex :
    (sortedData c6stE = [c6rE1, c6rE2] ∧
      rowCompare "" Direction.asc c6rE1 c6rE2 = 1) ∧
    (sortedData c6stM = [c6rM1, c6rM2, c6rM3] ∧
      rowCompare "a" Direction.asc c6rM1 c6rM3 = 1) := by
  refine ⟨⟨?_, ?_⟩, ⟨?_, ?_⟩⟩ <;> decide

/-- C6 amended: for a present, non-empty sort key (the code treats the
empty-string key as unset) and a present direction, over rows whose key
values are all present and of one runtime type, `sortedData` is the stable
sort of `rows` by the key: a permutation of `rows`, pairwise
non-descending under the comparator (descending inverts it), and every
comparator-tie class keeps its original relative order. -/
theorem sortedData_stable_sort (st : MasterState) (col : String)
    (dir : Direction) (hc : st.sortColumn = some col)
    (hne : col.isEmpty = false) (hd : st.sortDirection = some dir)
    (hhom : HomogeneousKeys col st.data) :
    List.Perm (sortedData st) st.data ∧
    List.Pairwise (fun a b => rowCompare col dir a b ≤ 0) (sortedData st) ∧
    (∀ r ∈ st.data,
      (sortedData st).filter (fun x => rowCompare col dir x r == 0)
        = st.data.filter (fun x => rowCompare col dir x r == 0)) := by
  obtain ⟨hneg, htrans, hcls⟩ := rowCompare_facts col dir st.data hhom
  rw [sortedData_eq_stableSort st col dir hc hne hd]
  refine ⟨stableSort_perm _ _, ?_, ?_⟩
  · apply stableSort_pairwise
    · intro a ha b hb
      have h := hneg a ha b hb
      omega
    · exact htrans
  · intro r hr
    apply filter_stableSort
    intro a ha b hb hpa hpb
    exact hcls r hr a ha b hb (by simpa using hpa) (by simpa using hpb)

/-- Witness for the amended C6: rows `{id:1,name:"B"}, {id:2,name:"A"},
{id:3,name:"A"}` sorted ascending by `name`; the conclusions hold and the
concrete output is `[{id:2}, {id:3}, {id:1}]`, the tie on `"A"` keeping
insertion order. -/
theorem sortedData_stable_sort_witness :
    (List.Perm (sortedData c6st) c6st.data ∧
      List.Pairwise
        (fun a b => rowCompare "name" Direction.asc a b ≤ 0) (sortedData c6st) ∧
      (∀ r ∈ c6st.data,
        (sortedData c6st).filter
            (fun x => rowCompare "name" Direction.asc x r == 0)
          = c6st.data.filter
              (fun x => rowCompare "name" Direction.asc x r == 0))) ∧
    sortedData c6st = [c6r2, c6r3, c6r1] :=
  ⟨sortedData_stable_sort c6st "name" Direction.asc rfl rfl rfl (by decide),
   by decide⟩

/-- C5 counterexample: rows `[{k:5}, {}]` sorted ascending by `k`. If an
absent field sorted as lowest, the empty row would move to the front; the
code's comparator returns 0 against `undefined`, so the order is
unchanged and the present value stays first. -/
theorem sortedData_absent_field_cex :
    sortedData c5st = [c5r1, c5r2] ∧
    getField c5r2 "k" = none ∧
    getField c5r1 "k" = some (Value.num 5) ∧
    [c5r1, c5r2] ≠ [c5r2, c5r1] := by
  refine ⟨?_, ?_, ?_, ?_⟩ <;> decide

/-- C5 amended: reading `sortedData` never throws — it always returns a
permutation of the rows — and a row whose sort-key field is absent
compares equal (comparator 0) to every row in either argument order, so
the stable sort keeps rows with absent fields in their original relative
positions instead of sorting them as lowest. -/
theorem sortedData_absent_field (st : MasterState) (col : String)
    (dir : Direction) (a b : Row) (ha : getField a col = none) :
    List.Perm (sortedData st) st.data ∧
    rowCompare col dir a b = 0 ∧ rowCompare col dir b a = 0 := by
  refine ⟨?_, ?_, ?_⟩
  · cases hc : st.sortColumn with
    | none => simp [sortedData, hc]
    | some c =>
      cases hd : st.sortDirection with
      | none => simp [sortedData, hc, hd]
      | some d =>
        by_cases he : c.isEmpty
        · simp [sortedData, hc, hd, he]
        · rw [sortedData_eq_stableSort st c d hc (by simpa using he) hd]
          exact stableSort_perm _ _
  · cases hgb : getField b col <;> simp [rowCompare, jsLt, ha, hgb]
  · cases hgb : getField b col <;> simp [rowCompare, jsLt, ha, hgb]

/-- Witness for the amended C5 on a store whose second row lacks the key
`k`: the sorted view is a permutation of the rows and the comparator
returns 0 between the empty row and a `k`-carrying row. -/
theorem sortedData_absent_field_witness :
    List.Perm (sortedData c5stW) c5stW.data ∧
    rowCompare "k" Direction.asc [] [("k", Value.num 1)] = 0 ∧
    rowCompare "k" Direction.asc [("k", Value.num 1)] [] = 0 :=
  sortedData_absent_field c5stW "k" Direction.asc [] [("k", Value.num 1)] rfl
